import Mathlib

/-!
Verification development for the papr-fastapi-pdf-chat repository.

Python strings are modelled as lists of unicode code points (`PyStr`),
byte lengths via UTF-8 sizes of the code points, and the services'
functions are translated into executable Lean definitions:

* `chunk_content`           — `PaprMemoryService._chunk_content` (papr_service.py)
* `chunk_content_enhanced`  — `EnhancedMemoryService._chunk_content` (enhanced_memory_service.py)
* `createFallbackMetadata`  — `EnhancedMemoryService._create_fallback_metadata`
* `processDocumentEnhanced` — `EnhancedMemoryService.process_document_enhanced`
* `routerEnhanced`          — `upload_document_enhanced_with_progress` (upload_progress.py)
* `updateProgress` / `trackerComplete` / `trackerError` / `cleanupLater`
                            — `ProgressTracker` (upload_progress.py)
* `eventStream`             — the SSE `event_stream` generator (upload_progress.py)

External collaborators (OpenAI, the Papr memory store, PDF extraction,
the uuid and clock sources) are modelled as oracles passed in as
arguments, one value per call site, in call order.
-/

/-- A Python `str`: a sequence of unicode code points. -/
abbrev PyStr := List Char

/-- Coerce a Lean string literal to the model's string type. -/
def pstr (s : String) : PyStr := s.data

/-- `len(s.encode('utf-8'))`: the UTF-8 byte length of a Python string. -/
def byteLen (s : PyStr) : Nat := (s.map Char.utf8Size).sum

/-- The whitespace characters recognised by Python's `str.split()` /
`str.strip()` (the ASCII ones; all inputs in this development are ASCII). -/
def isPySpace (c : Char) : Bool :=
  c = ' ' ∨ c = '\t' ∨ c = '\n' ∨ c = '\r' ∨ c = '\x0b' ∨ c = '\x0c'

/-- Accumulator loop for Python `s.split()`: `acc` is the reversed word
currently being scanned. -/
def pySplitAux (acc : PyStr) : PyStr → List PyStr
  | [] => if acc = [] then [] else [acc.reverse]
  | c :: cs =>
    if isPySpace c then
      if acc = [] then pySplitAux [] cs else acc.reverse :: pySplitAux [] cs
    else pySplitAux (c :: acc) cs

/-- Python `s.split()`: split on runs of whitespace, discarding empty parts. -/
def pySplit (s : PyStr) : List PyStr := pySplitAux [] s

/-- Python `' '.join(ws)`. -/
def joinSpace : List PyStr → PyStr
  | [] => []
  | [w] => w
  | w :: ws => w ++ ' ' :: joinSpace ws

/-- `len((word + ' ').encode('utf-8'))`, the per-word size used by the plain
chunker's accounting. -/
def wordSize (w : PyStr) : Nat := byteLen (w ++ [' '])

/-- The word loop of `PaprMemoryService._chunk_content`: state is the list of
words of the chunk under construction (`current_chunk`) and its accounted size
(`current_size`). -/
def chunkLoop (m : Nat) : List PyStr → List PyStr → Nat → List PyStr
  | [], cur, _ => if cur = [] then [] else [joinSpace cur]
  | w :: ws, cur, size =>
    if size + wordSize w > m ∧ cur ≠ [] then
      joinSpace cur :: chunkLoop m ws [w] (wordSize w)
    else
      chunkLoop m ws (cur ++ [w]) (size + wordSize w)

/-- `PaprMemoryService._chunk_content(content, max_chunk_size)`
(papr_service.py, lines 46-71). -/
def chunk_content (m : Nat) (content : PyStr) : List PyStr :=
  if byteLen content ≤ m then [content]
  else chunkLoop m (pySplit content) [] 0

example : chunk_content 14000 (pstr "hello world") = [pstr "hello world"] := by decide
example : chunk_content 8 (pstr "aaa bbb ccc") = [pstr "aaa bbb", pstr "ccc"] := by decide
example : chunk_content 4 (pstr "aaaaaaaa bb") = [pstr "aaaaaaaa", pstr "bb"] := by decide

/-- Python `content.split('\n\n')`: split on the two-newline separator,
keeping empty parts, scanning left to right without overlap. -/
def splitOnNN : PyStr → List PyStr
  | [] => [[]]
  | '\n' :: '\n' :: rest => [] :: splitOnNN rest
  | c :: rest =>
    match splitOnNN rest with
    | [] => [[c]]
    | p :: ps => (c :: p) :: ps

/-- Python `s.strip()`: remove leading and trailing whitespace. -/
def pyStrip (s : PyStr) : PyStr :=
  ((s.dropWhile isPySpace).reverse.dropWhile isPySpace).reverse

example : splitOnNN (pstr "aa\n\nbb cc\n\n\ndd") = [pstr "aa", pstr "bb cc", pstr "\ndd"] := by
  decide
example : pyStrip (pstr "  ab c\n") = pstr "ab c" := by decide

/-- The inner word loop of `EnhancedMemoryService._chunk_content`
(enhanced_memory_service.py, lines 333-343), entered for a paragraph that
overflows an empty `current_chunk`.  State: chunks emitted so far (in order)
and the `current_chunk` string.  Sizes are Python `len`, i.e. code points. -/
def enhWordLoop (m : Nat) : List PyStr → List PyStr × PyStr → List PyStr × PyStr
  | [], st => st
  | w :: ws, (cs, cur) =>
    if cur.length + w.length > m then
      if cur ≠ [] then enhWordLoop m ws (cs ++ [pyStrip cur], w)
      else enhWordLoop m ws (cs ++ [w.take m], cur)
    else enhWordLoop m ws (cs, if cur = [] then w else cur ++ ' ' :: w)

/-- The paragraph loop of `EnhancedMemoryService._chunk_content`
(enhanced_memory_service.py, lines 326-345). -/
def enhParLoop (m : Nat) : List PyStr → List PyStr × PyStr → List PyStr × PyStr
  | [], st => st
  | p :: ps, (cs, cur) =>
    if cur.length + p.length > m then
      if cur ≠ [] then enhParLoop m ps (cs ++ [pyStrip cur], p)
      else enhParLoop m ps (enhWordLoop m (pySplit p) (cs, cur))
    else enhParLoop m ps (cs, if cur = [] then p else cur ++ '\n' :: '\n' :: p)

/-- `EnhancedMemoryService._chunk_content(content, max_size)`
(enhanced_memory_service.py, lines 318-350). -/
def chunk_content_enhanced (m : Nat) (content : PyStr) : List PyStr :=
  match enhParLoop m (splitOnNN content) ([], []) with
  | (cs, cur) => if cur = [] then cs else cs ++ [pyStrip cur]

example : chunk_content_enhanced 12000 (pstr "hello world") = [pstr "hello world"] := by decide
example :
    chunk_content_enhanced 10 (pstr "aa\n\nbbb ccc ddd") = [pstr "aa", pstr "bbb ccc ddd"] := by
  decide
example : chunk_content_enhanced 4 (pstr "aaaaaaaa") = [pstr "aaaa"] := by decide

/-- Decimal rendering of a natural number, for the f-string messages. -/
def natStr (n : Nat) : PyStr := Nat.toDigits 10 n

/-- Job status values stored in the progress record's `status` field. -/
inductive Status
  | processing
  | complete
  | error
deriving DecidableEq

/-- The result dictionary returned by
`EnhancedMemoryService.process_document_enhanced` (lines 115-122), which is
also the payload attached by `ProgressTracker.complete`.  uuids and memory
ids are modelled as naturals. -/
structure EnhResult where
  document_id : Nat
  filename : PyStr
  chunks_created : Nat
  total_chunks : Nat
  memory_ids : List Nat
  enhanced : Bool
deriving DecidableEq

/-- One progress record in `progress_store` (upload_progress.py).  Each write
replaces the whole dictionary, so the optional `result` / `error` keys are
`none` whenever the writing method does not set them. -/
structure Record where
  current : Int
  total : Int
  percent : ℚ
  message : PyStr
  status : Status
  result : Option EnhResult
  error : Option PyStr
deriving DecidableEq

/-- The process-wide `progress_store` dictionary, keyed by upload id. -/
def Store := PyStr → Option Record

/-- `progress_store[k] = v` (dictionary write). -/
def storeSet (s : Store) (k : PyStr) (v : Record) : Store :=
  fun k' => if k' = k then some v else s k'

/-- `del progress_store[k]` (dictionary delete). -/
def storeErase (s : Store) (k : PyStr) : Store :=
  fun k' => if k' = k then none else s k'

/-- The record written by `ProgressTracker.update_progress(current, total,
message)` (upload_progress.py, lines 28-39). -/
def mkUpdate (current total : Int) (message : PyStr) : Record :=
  { current := current
    total := total
    percent := if total > 0 then (current : ℚ) / (total : ℚ) * 100 else 0
    message := message
    status := .processing
    result := none
    error := none }

/-- The record written by `ProgressTracker.complete(result)`
(upload_progress.py, lines 41-52). -/
def mkComplete (res : EnhResult) : Record :=
  { current := res.chunks_created
    total := res.total_chunks
    percent := 100
    message := pstr "Complete! Created " ++ natStr res.chunks_created ++ pstr " chunks"
    status := .complete
    result := some res
    error := none }

/-- The record written by `ProgressTracker.error(error_message)`
(upload_progress.py, lines 65-76). -/
def mkError (msg : PyStr) : Record :=
  { current := 0
    total := 100
    percent := 0
    message := pstr "Error: " ++ msg
    status := .error
    result := none
    error := some msg }

/-- `ProgressTracker.update_progress` acting on the store. -/
def updateProgress (s : Store) (jobId : PyStr) (current total : Int) (message : PyStr) : Store :=
  storeSet s jobId (mkUpdate current total message)

/-- `ProgressTracker.complete` acting on the store (the write only; the
delayed cleanup it spawns is `cleanupLater` below). -/
def trackerComplete (s : Store) (jobId : PyStr) (res : EnhResult) : Store :=
  storeSet s jobId (mkComplete res)

/-- `ProgressTracker.error` acting on the store. -/
def trackerError (s : Store) (jobId : PyStr) (msg : PyStr) : Store :=
  storeSet s jobId (mkError msg)

/-- The body of `cleanup_later` (upload_progress.py, lines 57-61), run 300
seconds after `complete`: delete the record if the key is still present. -/
def cleanupLater (s : Store) (jobId : PyStr) : Store :=
  if (s jobId).isSome then storeErase s jobId else s

/-- A timed tracker state: the store plus the pending delayed-cleanup tasks
spawned by `complete`, each with the absolute time at which it will fire. -/
structure TimedState where
  store : Store
  evictions : List (PyStr × Nat)

/-- `ProgressTracker.complete` called at absolute time `now`: writes the
completed record and spawns a cleanup task firing 300 seconds (5 minutes)
later. -/
def completeAt (st : TimedState) (now : Nat) (jobId : PyStr) (res : EnhResult) : TimedState :=
  { store := trackerComplete st.store jobId res
    evictions := st.evictions ++ [(jobId, now + 300)] }

/-- Fuel-driven body of Python `s.replace(pat, repl)` (all occurrences,
non-overlapping, left to right).  The fuel is the string length, which the
scan never exceeds. -/
def pyReplaceGo (pat repl : PyStr) : Nat → PyStr → PyStr
  | _, [] => []
  | 0, s => s
  | fuel + 1, c :: cs =>
    if pat ≠ [] ∧ pat.isPrefixOf (c :: cs) then
      repl ++ pyReplaceGo pat repl fuel (List.drop (pat.length - 1) cs)
    else c :: pyReplaceGo pat repl fuel cs

/-- Python `s.replace(pat, repl)`. -/
def pyReplace (s pat repl : PyStr) : PyStr := pyReplaceGo pat repl s.length s

example : pyReplace (pstr "a_b_c.pdf") (pstr "_") (pstr " ") = pstr "a b c.pdf" := by decide
example : pyReplace (pstr "x.pdf.pdf") (pstr ".pdf") [] = pstr "x" := by decide

/-- The metadata dictionary built by
`EnhancedMemoryService._create_fallback_metadata` (enhanced_memory_service.py,
lines 294-316).  `base` stands for the spread `**base_metadata` (its keys are
opaque here and none of the fixed keys below), `document_id` is the fresh
`uuid.uuid4()` drawn by `_generate_document_id`, and `created_at` is the
`datetime.utcnow()` timestamp, both modelled as naturals supplied by the
environment. -/
structure FallbackMeta where
  base : List (PyStr × PyStr)
  document_id : Nat
  chunk_index : Nat
  total_chunks : Nat
  title : PyStr
  summary : PyStr
  keywords : List PyStr
  topic_tags : List PyStr
  content_type : PyStr
  language : PyStr
  enhanced : Bool
  source_url : PyStr
  created_at : Nat
deriving DecidableEq

/-- `EnhancedMemoryService._create_fallback_metadata(filename, chunk_index,
total_chunks, base_metadata)`, with the uuid and clock reads made explicit. -/
def createFallbackMetadata (filename : PyStr) (chunk_index total_chunks : Nat)
    (base : List (PyStr × PyStr)) (uuid : Nat) (now : Nat) : FallbackMeta :=
  { base := base
    document_id := uuid
    chunk_index := chunk_index
    total_chunks := total_chunks
    title := pstr "Chunk " ++ natStr (chunk_index + 1) ++ pstr " from " ++ filename
    summary := pstr "Content chunk " ++ natStr (chunk_index + 1) ++ pstr " of " ++
      natStr total_chunks ++ pstr " from " ++ filename
    keywords := [pyReplace (pyReplace filename (pstr ".pdf") []) (pstr "_") (pstr " ")]
    topic_tags := [pstr "document"]
    content_type := pstr "other"
    language := pstr "en"
    enhanced := false
    source_url := filename
    created_at := now }

/-- Outcome of `_generate_enhanced_metadata` for one chunk: the OpenAI call
returned a tool call (`success`), returned without one (`noToolCall`), or
raised (`failure`, covering the call's own exception handler and the caller's
per-chunk handler alike — both substitute fallback metadata). -/
inductive EnrichOutcome
  | success
  | noToolCall
  | failure
deriving DecidableEq

/-- The per-chunk metadata handed to `add_memory_with_metadata` in the
enhanced pipeline: the fields the claims are about.  Both the enhanced and the
fallback dictionaries set `document_id := self._generate_document_id()`, a
fresh uuid per chunk. -/
structure ChunkMeta where
  document_id : Nat
  chunk_index : Nat
  total_chunks : Nat
  enhanced : Bool
deriving DecidableEq

/-- One invocation of the router's `progress_callback`. -/
structure CbCall where
  current : Nat
  total : Nat
  msg : PyStr
deriving DecidableEq

/-- The metadata records produced by the enrichment loop of
`process_document_enhanced` (lines 45-80): chunk `i` consumes the `i`-th
fresh uuid, whatever the enrichment outcome. -/
def enhMetas (enrich : Nat → EnrichOutcome) (uuid0 tc : Nat) : List ChunkMeta :=
  (List.range tc).map fun i =>
    { document_id := uuid0 + i
      chunk_index := i
      total_chunks := tc
      enhanced := enrich i = .success }

/-- The progress callbacks issued by the enrichment loop: one per chunk whose
enhancement did not raise (the per-chunk `except` handler issues none). -/
def enrichPhaseCbs (enrich : Nat → EnrichOutcome) (tc : Nat) : List CbCall :=
  (List.range tc).filterMap fun i =>
    if enrich i = .failure then none
    else some
      { current := i + 1
        total := tc
        msg := pstr "Enhanced chunk " ++ natStr (i + 1) ++ pstr "/" ++ natStr tc ++
          pstr " with AI metadata" }

/-- State produced by the upload loop of `process_document_enhanced`
(lines 87-110): upload calls attempted (in order), memory ids collected,
progress callbacks issued, and the message of the exception that aborted the
loop, if any. -/
structure UploadPhase where
  attempted : List Nat
  memIds : List Nat
  cbs : List CbCall
  err : Option PyStr
deriving DecidableEq

/-- The upload loop itself, over the chunk indices still to upload.  The
`upload` oracle is `papr_service.add_memory_with_metadata` for chunk `i`:
a memory id, or the exception message it raises.  A raise re-raises out of
the loop; the per-chunk progress callback fires only after a successful
upload, with `current = len(enhanced_chunks) + i + 1` and
`total = total_chunks * 2`. -/
def enhUploadGo (upload : Nat → Except PyStr Nat) (tc : Nat) : List Nat → UploadPhase
  | [] => ⟨[], [], [], none⟩
  | i :: rest =>
    match upload i with
    | .error msg => ⟨[i], [], [], some msg⟩
    | .ok mid =>
      let t := enhUploadGo upload tc rest
      ⟨i :: t.attempted, mid :: t.memIds,
        { current := tc + i + 1
          total := tc * 2
          msg := pstr "Uploaded enhanced chunk " ++ natStr (i + 1) ++ pstr "/" ++ natStr tc ++
            pstr " to memory" } :: t.cbs,
        t.err⟩

deriving instance DecidableEq for Except

/-- Observable trace of one `process_document_enhanced` invocation. -/
structure EnhTrace where
  callbacks : List CbCall
  metas : List ChunkMeta
  uploadsAttempted : List Nat
  outcome : Except PyStr EnhResult
deriving DecidableEq

/-- `EnhancedMemoryService.process_document_enhanced(content, filename, ...)`
(enhanced_memory_service.py, lines 22-126).  The uuid source is modelled as
the counter `uuid0` (the `k`-th `uuid.uuid4()` of the run is `uuid0 + k`):
the enrichment loop draws one uuid per chunk, then line 84 draws the uuid
returned as the result's `document_id`. -/
def processDocumentEnhanced (enrich : Nat → EnrichOutcome) (upload : Nat → Except PyStr Nat)
    (content : PyStr) (filename : PyStr) (uuid0 : Nat) : EnhTrace :=
  let tc := (chunk_content_enhanced 12000 content).length
  let up := enhUploadGo upload tc (List.range tc)
  { callbacks :=
      { current := 0
        total := tc
        msg := pstr "Starting enhanced processing of " ++ natStr tc ++ pstr " chunks..." } ::
      (enrichPhaseCbs enrich tc ++ up.cbs)
    metas := enhMetas enrich uuid0 tc
    uploadsAttempted := up.attempted
    outcome :=
      match up.err with
      | some msg => .error msg
      | none =>
        .ok
          { document_id := uuid0 + tc
            filename := filename
            chunks_created := up.memIds.length
            total_chunks := tc
            memory_ids := up.memIds
            enhanced := true } }

/-- `total_progress` as computed by the router's `progress_callback`
(upload_progress.py, lines 106-116): `int(20 + (current/total)*80)` when
`total > 0`, else `int(20)`.  The operand is non-negative, so Python's
truncating `int()` is the floor. -/
def routerProgress (current total : Nat) : Int :=
  ⌊(20 : ℚ) + (if 0 < total then (current : ℚ) / (total : ℚ) * 80 else 0)⌋

/-- `upload_document_enhanced_with_progress` (upload_progress.py, lines
78-148), for one job id: the sequence of records written to the job's slot in
`progress_store`, in order, together with the HTTP outcome (`.error e` is the
re-raised 500 with detail `e`).  `processPdf` is the `pdf_service.process_pdf`
collaborator: the extracted text, or the message of the exception it raises
(validation errors included). -/
def routerEnhanced (processPdf : Except PyStr PyStr) (enrich : Nat → EnrichOutcome)
    (upload : Nat → Except PyStr Nat) (filename : PyStr) (uuid0 : Nat) :
    List Record × Except PyStr Unit :=
  let u1 := mkUpdate 0 100 (pstr "Starting enhanced upload...")
  let u2 := mkUpdate 10 100 (pstr "Processing PDF...")
  match processPdf with
  | .error e => ([u1, u2, mkError e], .error e)
  | .ok text =>
    let u3 := mkUpdate 20 100 (pstr "Starting enhanced AI processing...")
    let tr := processDocumentEnhanced enrich upload text filename uuid0
    let cbRecs := tr.callbacks.map fun cb => mkUpdate (routerProgress cb.current cb.total) 100 cb.msg
    match tr.outcome with
    | .error msg => ([u1, u2, u3] ++ cbRecs ++ [mkError msg], .error msg)
    | .ok res => ([u1, u2, u3] ++ cbRecs ++ [mkComplete res], .ok ())

/-- An event yielded by the SSE `event_stream` generator: the not-found
payload, or a JSON dump of a progress record. -/
inductive SSEEvent
  | notFound
  | data (r : Record)
deriving DecidableEq

/-- Why the `event_stream` generator returned (or ran out of observations). -/
inductive StreamEnd
  | notFound
  | terminal
  | disappeared
  | fuelEnd
deriving DecidableEq

/-- The initial wait loop of `event_stream` (upload_progress.py, lines
242-245): each evaluation of the `while` condition consults the store once;
the loop spins while the record is absent and fewer than 50 waits have
elapsed (0.1 s each, about 5 seconds).  Returns the observations left for the
rest of the generator. -/
def waitLoop : Nat → List (Option Record) → List (Option Record)
  | _, [] => []
  | count, s :: rest => if s = none ∧ count < 50 then waitLoop (count + 1) rest else rest

/-- The main polling loop of `event_stream` (upload_progress.py, lines
254-273): one store consultation per iteration.  `last` is `last_progress`;
a changed record is yielded before the terminal check, a missing record
breaks out of the loop without yielding. -/
def mainLoop : Option Record → List (Option Record) → List SSEEvent × StreamEnd
  | _, [] => ([], .fuelEnd)
  | last, snap :: rest =>
    match snap with
    | none => ([], .disappeared)
    | some r =>
      let emitted : List SSEEvent := if some r = last then [] else [.data r]
      if r.status = .complete ∨ r.status = .error then (emitted, .terminal)
      else
        let next := mainLoop (if some r = last then last else some r) rest
        (emitted ++ next.1, next.2)

/-- The whole `event_stream` generator (upload_progress.py, lines 238-273)
as a function of the successive store states it observes, one per
consultation: the wait loop's condition checks, then the explicit
`not in progress_store` check (line 247) which yields the single not-found
event, then the main loop. -/
def eventStream (snaps : List (Option Record)) : List SSEEvent × StreamEnd :=
  match waitLoop 0 snaps with
  | [] => ([], .fuelEnd)
  | s :: rest => if s = none then ([.notFound], .notFound) else mainLoop none rest

/-- The per-chunk custom metadata attached by `PaprMemoryService.add_document`
(papr_service.py, lines 132-140): the fields the claims are about.  Every
chunk receives the single `document_group_id` uuid drawn at line 121. -/
structure PlainChunkMeta where
  document_id : Nat
  chunk_index : Nat
  total_chunks : Nat
  chunk_size : Nat
deriving DecidableEq

/-- The result dictionary returned by `add_document` (lines 182-186). -/
structure PlainResult where
  document_id : Nat
  chunks_created : Nat
  total_chunks : Nat
deriving DecidableEq

/-- `PaprMemoryService.add_document` (papr_service.py, lines 73-195), success
path: the per-chunk metadata sent with each `memory.add` call, and the
returned result.  `uuid` is the `uuid.uuid4()` drawn as
`document_group_id`. -/
def addDocument (content : PyStr) (uuid : Nat) : List PlainChunkMeta × PlainResult :=
  let chunks := chunk_content 14000 content
  ((List.range chunks.length).map fun i =>
      { document_id := uuid
        chunk_index := i
        total_chunks := chunks.length
        chunk_size := (chunks.getD i []).length },
    { document_id := uuid
      chunks_created := chunks.length
      total_chunks := chunks.length })

/-- The concrete long document used to exercise the enhanced pipeline on more
than one chunk: two 7000-character paragraphs, so `_chunk_content` with the
enhanced default bound of 12000 yields exactly two chunks. -/
def bigContent : PyStr :=
  List.replicate 7000 'a' ++ '\n' :: '\n' :: List.replicate 7000 'b'

/-- A word as produced by `pySplit`: non-empty and whitespace-free. -/
def goodWord (w : PyStr) : Prop := w ≠ [] ∧ ∀ c ∈ w, isPySpace c = false

/-- All members are `goodWord`s. -/
def goodWords (ws : List PyStr) : Prop := ∀ w ∈ ws, goodWord w

/-- The plain chunker's accounted size of a word list: the sum of the
per-word `wordSize`s, i.e. the value of `current_size`. -/
def sumSizes (ws : List PyStr) : Nat := (ws.map wordSize).sum

theorem pySplitAux_append_nospace (w : PyStr) :
    ∀ (acc s : PyStr), (∀ c ∈ w, isPySpace c = false) →
      pySplitAux acc (w ++ s) = pySplitAux (w.reverse ++ acc) s := by
  induction w with
  | nil => intro acc s _; simp
  | cons c w' ih =>
    intro acc s hw
    have hc : isPySpace c = false := hw c (List.mem_cons_self c w')
    have hw' : ∀ d ∈ w', isPySpace d = false := fun d hd => hw d (List.mem_cons_of_mem c hd)
    simp only [List.cons_append, pySplitAux, hc, Bool.false_eq_true, if_false]
    rw [show w'.append s = w' ++ s from rfl, ih (c :: acc) s hw']
    simp [List.append_assoc]

theorem pySplitAux_space_cons (acc s : PyStr) (h : acc ≠ []) :
    pySplitAux acc (' ' :: s) = acc.reverse :: pySplitAux [] s := by
  simp [pySplitAux, h, isPySpace]

theorem pySplitAux_nil_of_ne (acc : PyStr) (h : acc ≠ []) :
    pySplitAux acc [] = [acc.reverse] := by
  simp [pySplitAux, h]

theorem pySplit_of_goodWord (w : PyStr) (h : goodWord w) : pySplit w = [w] := by
  obtain ⟨hne, hchars⟩ := h
  have : pySplitAux [] (w ++ []) = pySplitAux (w.reverse ++ []) [] :=
    pySplitAux_append_nospace w [] [] hchars
  simp only [List.append_nil] at this
  rw [pySplit, this, pySplitAux_nil_of_ne _ (by simpa using hne)]
  simp

theorem pySplit_joinSpace :
    ∀ (ws : List PyStr), goodWords ws → ws ≠ [] → pySplit (joinSpace ws) = ws := by
  intro ws
  induction ws with
  | nil => intro _ h; exact absurd rfl h
  | cons w ws ih =>
    intro hg _
    have hw : goodWord w := hg w (List.mem_cons_self w ws)
    have hg' : goodWords ws := fun v hv => hg v (List.mem_cons_of_mem w hv)
    cases ws with
    | nil => exact pySplit_of_goodWord w hw
    | cons v vs =>
      show pySplit (w ++ ' ' :: joinSpace (v :: vs)) = w :: v :: vs
      rw [pySplit, pySplitAux_append_nospace w [] _ hw.2, List.append_nil,
        pySplitAux_space_cons _ _ (by simpa using hw.1), List.reverse_reverse]
      have := ih hg' (by simp)
      rw [pySplit] at this
      rw [this]

theorem pySplitAux_goodWords :
    ∀ (s acc : PyStr), (∀ c ∈ acc, isPySpace c = false) → goodWords (pySplitAux acc s) := by
  intro s
  induction s with
  | nil =>
    intro acc hacc
    by_cases h : acc = []
    · simp [pySplitAux, h, goodWords]
    · rw [pySplitAux_nil_of_ne _ h]
      intro w hw
      simp only [List.mem_singleton] at hw
      subst hw
      exact ⟨by simpa using h, fun c hc => hacc c (by simpa using hc)⟩
  | cons c cs ih =>
    intro acc hacc
    by_cases hc : isPySpace c
    · by_cases h : acc = []
      · simpa [pySplitAux, hc, h] using ih [] (by simp)
      · rw [show pySplitAux acc (c :: cs) = acc.reverse :: pySplitAux [] cs by
          simp [pySplitAux, hc, h]]
        intro w hw
        rcases List.mem_cons.mp hw with hw | hw
        · subst hw
          exact ⟨by simpa using h, fun d hd => hacc d (by simpa using hd)⟩
        · exact ih [] (by simp) w hw
    · rw [show pySplitAux acc (c :: cs) = pySplitAux (c :: acc) cs by
        simp [pySplitAux, hc]]
      exact ih (c :: acc) (by
        intro d hd
        rcases List.mem_cons.mp hd with hd | hd
        · subst hd; simpa using hc
        · exact hacc d hd)

theorem pySplit_goodWords (s : PyStr) : goodWords (pySplit s) :=
  pySplitAux_goodWords s [] (by simp)


theorem byteLen_append (a b : PyStr) : byteLen (a ++ b) = byteLen a + byteLen b := by
  simp [byteLen]

theorem byteLen_space_cons (l : PyStr) : byteLen (' ' :: l) = 1 + byteLen l := by
  have h1 : (' ' : Char).utf8Size = 1 := by decide
  simp [byteLen, h1]

theorem wordSize_eq (w : PyStr) : wordSize w = byteLen w + 1 := by
  have h1 : byteLen [' '] = 1 := by decide
  rw [wordSize, byteLen_append, h1]

theorem byteLen_joinSpace :
    ∀ (ws : List PyStr), ws ≠ [] → byteLen (joinSpace ws) + 1 = sumSizes ws := by
  intro ws
  induction ws with
  | nil => intro h; exact absurd rfl h
  | cons w ws ih =>
    intro _
    cases ws with
    | nil => simp [joinSpace, sumSizes, wordSize_eq]
    | cons v vs =>
      show byteLen (w ++ ' ' :: joinSpace (v :: vs)) + 1 = sumSizes (w :: v :: vs)
      have hvs := ih (by simp)
      rw [byteLen_append, byteLen_space_cons]
      simp only [sumSizes, List.map_cons, List.sum_cons, wordSize_eq] at hvs ⊢
      omega

theorem chunkLoop_words (m : Nat) :
    ∀ (ws cur : List PyStr) (size : Nat), goodWords ws → goodWords cur →
      (List.map pySplit (chunkLoop m ws cur size)).flatten = cur ++ ws := by
  intro ws
  induction ws with
  | nil =>
    intro cur size _ hcur
    by_cases h : cur = []
    · simp [chunkLoop, h]
    · simp [chunkLoop, h, pySplit_joinSpace cur hcur h]
  | cons w ws ih =>
    intro cur size hws hcur
    have hw : goodWord w := hws w (List.mem_cons_self w ws)
    have hws' : goodWords ws := fun v hv => hws v (List.mem_cons_of_mem w hv)
    have hsingle : goodWords [w] := by
      intro v hv
      simp only [List.mem_singleton] at hv
      exact hv ▸ hw
    by_cases h : size + wordSize w > m ∧ cur ≠ []
    · rw [show chunkLoop m (w :: ws) cur size =
          joinSpace cur :: chunkLoop m ws [w] (wordSize w) by simp [chunkLoop, h]]
      rw [List.map_cons, List.flatten_cons, ih [w] (wordSize w) hws' hsingle,
        pySplit_joinSpace cur hcur h.2]
      simp
    · rw [show chunkLoop m (w :: ws) cur size =
          chunkLoop m ws (cur ++ [w]) (size + wordSize w) by simp [chunkLoop, h]]
      have hcur' : goodWords (cur ++ [w]) := by
        intro v hv
        rcases List.mem_append.mp hv with hv | hv
        · exact hcur v hv
        · simp only [List.mem_singleton] at hv
          exact hv ▸ hw
      rw [ih (cur ++ [w]) (size + wordSize w) hws' hcur']
      simp

theorem chunkLoop_bound (m : Nat) :
    ∀ (ws cur : List PyStr) (size : Nat) (c : PyStr),
      size = sumSizes cur → (size ≤ m ∨ ∃ w, cur = [w]) →
      c ∈ chunkLoop m ws cur size → byteLen c ≤ m ∨ c ∈ cur ++ ws := by
  intro ws
  induction ws with
  | nil =>
    intro cur size c hsize hinv hc
    by_cases h : cur = []
    · simp [chunkLoop, h] at hc
    · rw [show chunkLoop m [] cur size = [joinSpace cur] by simp [chunkLoop, h]] at hc
      simp only [List.mem_singleton] at hc
      subst hc
      rcases hinv with hle | ⟨w, hw⟩
      · left
        have := byteLen_joinSpace cur h
        omega
      · right
        subst hw
        simp [joinSpace]
  | cons w ws ih =>
    intro cur size c hsize hinv hc
    by_cases h : size + wordSize w > m ∧ cur ≠ []
    · rw [show chunkLoop m (w :: ws) cur size =
          joinSpace cur :: chunkLoop m ws [w] (wordSize w) by simp [chunkLoop, h]] at hc
      rcases List.mem_cons.mp hc with hc | hc
      · subst hc
        rcases hinv with hle | ⟨v, hv⟩
        · left
          have := byteLen_joinSpace cur h.2
          omega
        · right
          subst hv
          simp [joinSpace]
      · rcases ih [w] (wordSize w) c (by simp [sumSizes]) (Or.inr ⟨w, rfl⟩) hc with hb | hm
        · exact Or.inl hb
        · right
          rcases List.mem_append.mp hm with hm | hm
          · simp only [List.mem_singleton] at hm
            subst hm
            exact List.mem_append.mpr (Or.inr (List.mem_cons_self c ws))
          · exact List.mem_append.mpr (Or.inr (List.mem_cons_of_mem w hm))
    · rw [show chunkLoop m (w :: ws) cur size =
          chunkLoop m ws (cur ++ [w]) (size + wordSize w) by simp [chunkLoop, h]] at hc
      have hsize' : size + wordSize w = sumSizes (cur ++ [w]) := by
        simp [sumSizes, hsize]
      have hinv' : size + wordSize w ≤ m ∨ ∃ v, cur ++ [w] = [v] := by
        by_cases hcur : cur = []
        · exact Or.inr ⟨w, by simp [hcur]⟩
        · left
          rcases Nat.lt_or_ge m (size + wordSize w) with hgt | hle
          · exact absurd ⟨hgt, hcur⟩ h
          · exact hle
      rcases ih (cur ++ [w]) (size + wordSize w) c hsize' hinv' hc with hb | hm
      · exact Or.inl hb
      · right
        rw [List.append_assoc] at hm
        simpa using hm

/-- C2, counterexample.  The claim says every chunk produced by the content
chunkers has byte length at most the bound `m`, except chunks arising from a
single word longer than `m`, which are truncated to exactly `m` bytes.  The
enhanced service's chunker violates this: with bound 10, the text
"aa\n\nbbb ccc ddd" produces the chunk "bbb ccc ddd" of byte length 11 —
over the bound although every single word in it is at most 10 bytes, and not
truncated — because a paragraph arriving while a chunk is in progress is
carried over whole without any size check. -/
theorem C2_counterexample :
    pstr "bbb ccc ddd" ∈ chunk_content_enhanced 10 (pstr "aa\n\nbbb ccc ddd") ∧
    byteLen (pstr "bbb ccc ddd") = 11 ∧
    (∀ w ∈ pySplit (pstr "bbb ccc ddd"), byteLen w ≤ 10) := by
  decide

/-- C2, amended.  For the plain service's `_chunk_content`, every produced
chunk either has byte length at most the bound `m`, or is a single
whitespace-delimited word of the input text emitted whole (not truncated to
`m`).  The enhanced service's `_chunk_content` gives no such guarantee, as
the counterexample shows. -/
theorem C2_plain_chunk_bound (m : Nat) (t c : PyStr) (hc : c ∈ chunk_content m t) :
    byteLen c ≤ m ∨ c ∈ pySplit t := by
  rw [chunk_content] at hc
  by_cases h : byteLen t ≤ m
  · rw [if_pos h] at hc
    simp only [List.mem_singleton] at hc
    subst hc
    exact Or.inl h
  · rw [if_neg h] at hc
    have := chunkLoop_bound m (pySplit t) [] 0 c (by simp [sumSizes]) (Or.inl (Nat.zero_le m)) hc
    simpa using this

/-- Witness for C2's amended theorem at a concrete input. -/
theorem C2_plain_chunk_bound_witness :
    byteLen (pstr "ab") ≤ 5 ∨ pstr "ab" ∈ pySplit (pstr "ab") :=
  C2_plain_chunk_bound 5 (pstr "ab") (pstr "ab") (by decide)

/-- C10, confirmed.  The plain service's `_chunk_content` preserves the word
sequence: concatenating the per-chunk word sequences (equivalently, joining
the chunks with whitespace and splitting) yields exactly the
whitespace-split word sequence of the input, in order — no word is split
across chunks, dropped, or duplicated.  This holds for every input,
including inputs containing words over the size bound. -/
theorem C10_words_preserved (m : Nat) (t : PyStr) :
    (List.map pySplit (chunk_content m t)).flatten = pySplit t := by
  rw [chunk_content]
  by_cases h : byteLen t ≤ m
  · simp [h]
  · rw [if_neg h]
    have := chunkLoop_words m (pySplit t) [] 0 (pySplit_goodWords t) (by intro w hw; simp at hw)
    simpa using this

/-- C3, counterexample.  The claim says the fallback metadata is a function
of (filename, chunk_index, total_chunks, base_metadata) alone, identical
across runs except for a timestamp field.  But `_create_fallback_metadata`
also embeds a fresh `uuid.uuid4()` as `document_id`: two runs with identical
inputs and even an identical clock differ in `document_id`, a
non-timestamp field. -/
theorem C3_counterexample :
    (createFallbackMetadata (pstr "a.pdf") 0 1 [] 0 5).created_at =
      (createFallbackMetadata (pstr "a.pdf") 0 1 [] 1 5).created_at ∧
    (createFallbackMetadata (pstr "a.pdf") 0 1 [] 0 5).document_id ≠
      (createFallbackMetadata (pstr "a.pdf") 0 1 [] 1 5).document_id ∧
    createFallbackMetadata (pstr "a.pdf") 0 1 [] 0 5 ≠
      createFallbackMetadata (pstr "a.pdf") 0 1 [] 1 5 := by
  decide

/-- C3, amended.  Fallback metadata is deterministic in (filename,
chunk_index, total_chunks, base_metadata) in every field except the
`created_at` timestamp and the freshly drawn `document_id` uuid: two runs
with identical inputs agree on all other fields. -/
theorem C3_fallback_deterministic (f : PyStr) (i n : Nat) (b : List (PyStr × PyStr))
    (u u' t t' : Nat) :
    (createFallbackMetadata f i n b u t).base = (createFallbackMetadata f i n b u' t').base ∧
    (createFallbackMetadata f i n b u t).chunk_index =
      (createFallbackMetadata f i n b u' t').chunk_index ∧
    (createFallbackMetadata f i n b u t).total_chunks =
      (createFallbackMetadata f i n b u' t').total_chunks ∧
    (createFallbackMetadata f i n b u t).title = (createFallbackMetadata f i n b u' t').title ∧
    (createFallbackMetadata f i n b u t).summary =
      (createFallbackMetadata f i n b u' t').summary ∧
    (createFallbackMetadata f i n b u t).keywords =
      (createFallbackMetadata f i n b u' t').keywords ∧
    (createFallbackMetadata f i n b u t).topic_tags =
      (createFallbackMetadata f i n b u' t').topic_tags ∧
    (createFallbackMetadata f i n b u t).content_type =
      (createFallbackMetadata f i n b u' t').content_type ∧
    (createFallbackMetadata f i n b u t).language =
      (createFallbackMetadata f i n b u' t').language ∧
    (createFallbackMetadata f i n b u t).enhanced =
      (createFallbackMetadata f i n b u' t').enhanced ∧
    (createFallbackMetadata f i n b u t).source_url =
      (createFallbackMetadata f i n b u' t').source_url :=
  ⟨rfl, rfl, rfl, rfl, rfl, rfl, rfl, rfl, rfl, rfl, rfl⟩

/-- C7, confirmed.  A call to `update_progress` on a job whose record is in a
terminal state is not rejected: it overwrites the record, reverting the
status to processing, with percent recomputed as 100·current/total when
total is positive and 0 otherwise (and the terminal record's result or error
payload dropped). -/
theorem C7_update_after_terminal (s : Store) (j : PyStr) (r : Record) (c t : Int)
    (msg : PyStr) (hr : s j = some r) (hterm : r.status = .complete ∨ r.status = .error) :
    updateProgress s j c t msg j =
      some
        { current := c
          total := t
          percent := if t > 0 then 100 * (c : ℚ) / (t : ℚ) else 0
          message := msg
          status := .processing
          result := none
          error := none } := by
  have hp : (if t > 0 then (c : ℚ) / (t : ℚ) * 100 else 0) =
      (if t > 0 then 100 * (c : ℚ) / (t : ℚ) else 0) := by
    split_ifs with h
    · ring
    · rfl
  show (if j = j then some (mkUpdate c t msg) else s j) = _
  rw [if_pos rfl]
  simp only [mkUpdate]
  rw [hp]

/-- Witness for C7 at a concrete store holding a completed record. -/
theorem C7_update_after_terminal_witness :
    updateProgress
        (storeSet (fun _ => none) (pstr "job")
          (mkComplete ⟨0, pstr "f", 1, 1, [0], true⟩))
        (pstr "job") 3 4 (pstr "m") (pstr "job") =
      some
        { current := 3
          total := 4
          percent := if (4 : Int) > 0 then 100 * (3 : ℚ) / (4 : ℚ) else 0
          message := pstr "m"
          status := .processing
          result := none
          error := none } :=
  C7_update_after_terminal _ (pstr "job") (mkComplete ⟨0, pstr "f", 1, 1, [0], true⟩) 3 4
    (pstr "m") (by decide) (Or.inl rfl)

/-- C9, confirmed.  `complete` writes the completed record and schedules its
eviction exactly 300 seconds (the 5-minute grace window) after the call; the
record stays retrievable under operations on other job ids until the cleanup
fires, the cleanup evicts a still-present record, and when the record was
already deleted the cleanup finds the key missing and no-ops instead of
erroring. -/
theorem C9_completion_grace_window (st : TimedState) (now : Nat) (j : PyStr)
    (res : EnhResult) :
    (completeAt st now j res).store j = some (mkComplete res) ∧
    (completeAt st now j res).evictions = st.evictions ++ [(j, now + 300)] ∧
    (∀ k v, k ≠ j → storeSet (completeAt st now j res).store k v j = some (mkComplete res)) ∧
    (∀ k, k ≠ j → storeErase (completeAt st now j res).store k j = some (mkComplete res)) ∧
    cleanupLater (completeAt st now j res).store j j = none ∧
    (∀ s : Store, s j = none → cleanupLater s j = s) := by
  have hself : (completeAt st now j res).store j = some (mkComplete res) := by
    show (if j = j then some (mkComplete res) else st.store j) = _
    rw [if_pos rfl]
  refine ⟨hself, rfl, ?_, ?_, ?_, ?_⟩
  · intro k v hk
    show (if j = k then some v else (completeAt st now j res).store j) = _
    rw [if_neg (fun h => hk h.symm), hself]
  · intro k hk
    show (if j = k then none else (completeAt st now j res).store j) = _
    rw [if_neg (fun h => hk h.symm), hself]
  · rw [cleanupLater, if_pos (by rw [hself]; rfl)]
    show (if j = j then none else (completeAt st now j res).store j) = none
    rw [if_pos rfl]
  · intro s hs
    rw [cleanupLater, if_neg (by rw [hs]; simp)]

/-- Witness for C9 at a concrete empty store and job id. -/
theorem C9_completion_grace_window_witness :
    (completeAt ⟨fun _ => none, []⟩ 0 (pstr "job") ⟨0, pstr "f", 1, 1, [0], true⟩).store
        (pstr "job") = some (mkComplete ⟨0, pstr "f", 1, 1, [0], true⟩) ∧
    (completeAt ⟨fun _ => none, []⟩ 0 (pstr "job")
        ⟨0, pstr "f", 1, 1, [0], true⟩).evictions = [(pstr "job", 300)] ∧
    storeSet
        (completeAt ⟨fun _ => none, []⟩ 0 (pstr "job")
          ⟨0, pstr "f", 1, 1, [0], true⟩).store
        (pstr "other") (mkError (pstr "x")) (pstr "job") =
      some (mkComplete ⟨0, pstr "f", 1, 1, [0], true⟩) ∧
    cleanupLater
        (completeAt ⟨fun _ => none, []⟩ 0 (pstr "job")
          ⟨0, pstr "f", 1, 1, [0], true⟩).store
        (pstr "job") (pstr "job") = none ∧
    cleanupLater (fun _ => none) (pstr "job") = (fun _ => none) := by
  obtain ⟨h1, h2, h3, _, h5, h6⟩ :=
    C9_completion_grace_window ⟨fun _ => none, []⟩ 0 (pstr "job")
      ⟨0, pstr "f", 1, 1, [0], true⟩
  exact ⟨h1, h2, h3 (pstr "other") (mkError (pstr "x")) (by decide), h5,
    h6 (fun _ => none) rfl⟩

/-- C5, counterexample.  The claim says that on an input validation error
the job's progress record never has status processing.  But the route
handler issues two `update_progress` calls (0% and 10%) — each of which sets
status processing — before `process_pdf` runs the validation that raises:
the job's record trace on a validation failure is processing, processing,
error. -/
theorem C5_counterexample :
    ((routerEnhanced (.error (pstr "File type not allowed. Allowed types: pdf"))
          (fun _ => .success) (fun i => .ok i) (pstr "a.exe") 0).1.map
        (fun r => r.status)) =
      [Status.processing, Status.processing, Status.error] ∧
    Status.processing ∈
      ((routerEnhanced (.error (pstr "File type not allowed. Allowed types: pdf"))
            (fun _ => .success) (fun i => .ok i) (pstr "a.exe") 0).1.map
          (fun r => r.status)) := by
  decide

/-- C5, amended.  When `process_pdf` raises (validation errors included),
the error is surfaced to the caller (the handler re-raises it as an HTTP 500
with the message as detail) and the job's final record has status error with
the message attached — but the record does pass through status processing
first, via the two initial coarse updates issued before validation runs. -/
theorem C5_validation_error_surfaced (e : PyStr) (enrich : Nat → EnrichOutcome)
    (upload : Nat → Except PyStr Nat) (fname : PyStr) (uuid0 : Nat) :
    routerEnhanced (.error e) enrich upload fname uuid0 =
      ([mkUpdate 0 100 (pstr "Starting enhanced upload..."),
        mkUpdate 10 100 (pstr "Processing PDF..."),
        mkError e], .error e) ∧
    (mkUpdate 0 100 (pstr "Starting enhanced upload...")).status = .processing ∧
    (mkUpdate 10 100 (pstr "Processing PDF...")).status = .processing ∧
    (mkError e).status = .error ∧
    (mkError e).error = some e :=
  ⟨rfl, rfl, rfl, rfl, rfl⟩

theorem range_split (k n : Nat) (h : k < n) :
    List.range n = List.range k ++ k :: List.range' (k + 1) (n - k - 1) := by
  rw [List.range_eq_range', List.range_eq_range']
  have h2 : List.range' k (n - k) = k :: List.range' (k + 1) (n - k - 1) := by
    have h4 := List.range'_succ k (n - k - 1) 1
    rw [← h4]
    congr 1
    omega
  rw [← h2]
  have h3 := List.range'_append_1 0 k (n - k)
  rw [Nat.zero_add] at h3
  rw [h3]
  congr 1
  omega

theorem mkUpdate_status (c t : Int) (m : PyStr) : (mkUpdate c t m).status = .processing := rfl

theorem mkError_status (m : PyStr) : (mkError m).status = .error := rfl

theorem enhUploadGo_fail (upload : Nat → Except PyStr Nat) (tc k : Nat) (msg : PyStr)
    (hfail : upload k = .error msg) :
    ∀ (idxs1 idxs2 : List Nat), (∀ i ∈ idxs1, ∃ mid, upload i = .ok mid) →
      ∃ mids cbs, enhUploadGo upload tc (idxs1 ++ k :: idxs2) =
        ⟨idxs1 ++ [k], mids, cbs, some msg⟩ := by
  intro idxs1
  induction idxs1 with
  | nil =>
    intro idxs2 _
    refine ⟨[], [], ?_⟩
    simp [enhUploadGo, hfail]
  | cons i rest ih =>
    intro idxs2 hok
    obtain ⟨mid, hmid⟩ := hok i (List.mem_cons_self i rest)
    obtain ⟨mids, cbs, hrec⟩ := ih idxs2 (fun j hj => hok j (List.mem_cons_of_mem i hj))
    refine ⟨mid :: mids,
      { current := tc + i + 1
        total := tc * 2
        msg := pstr "Uploaded enhanced chunk " ++ natStr (i + 1) ++ pstr "/" ++ natStr tc ++
          pstr " to memory" } :: cbs, ?_⟩
    rw [List.cons_append]
    simp [enhUploadGo, hmid, hrec]

/-- C6, confirmed.  When the remote upload of some chunk fails, the pipeline
stops: the upload calls attempted are exactly those for chunks 0 through the
failing one, the pipeline raises instead of producing a completion result,
the handler re-raises the error to the caller, no record with status
complete is ever written for the job, and the final record has status error
with the triggering exception's message attached verbatim. -/
theorem C6_upload_failure_aborts (content : PyStr) (enrich : Nat → EnrichOutcome)
    (upload : Nat → Except PyStr Nat) (fname : PyStr) (uuid0 : Nat) (k : Nat) (msg : PyStr)
    (hk : k < (chunk_content_enhanced 12000 content).length)
    (hfail : upload k = .error msg)
    (hpre : ∀ i, i < k → ∃ mid, upload i = .ok mid) :
    (processDocumentEnhanced enrich upload content fname uuid0).uploadsAttempted =
      List.range (k + 1) ∧
    (processDocumentEnhanced enrich upload content fname uuid0).outcome = .error msg ∧
    (routerEnhanced (.ok content) enrich upload fname uuid0).2 = .error msg ∧
    (∀ r ∈ (routerEnhanced (.ok content) enrich upload fname uuid0).1,
      r.status ≠ .complete) ∧
    (routerEnhanced (.ok content) enrich upload fname uuid0).1.getLast? =
      some (mkError msg) := by
  have hok1 : ∀ i ∈ List.range k, ∃ mid, upload i = .ok mid :=
    fun i hi => hpre i (List.mem_range.mp hi)
  obtain ⟨mids, cbs, hup⟩ :=
    enhUploadGo_fail upload (chunk_content_enhanced 12000 content).length k msg hfail
      (List.range k)
      (List.range' (k + 1) ((chunk_content_enhanced 12000 content).length - k - 1)) hok1
  rw [← range_split k _ hk] at hup
  have hatt :
      (processDocumentEnhanced enrich upload content fname uuid0).uploadsAttempted =
        List.range (k + 1) := by
    simp only [processDocumentEnhanced]
    rw [hup, List.range_succ]
  have hout :
      (processDocumentEnhanced enrich upload content fname uuid0).outcome = .error msg := by
    simp only [processDocumentEnhanced]
    rw [hup]
  have hrouter :
      routerEnhanced (.ok content) enrich upload fname uuid0 =
        ([mkUpdate 0 100 (pstr "Starting enhanced upload..."),
          mkUpdate 10 100 (pstr "Processing PDF..."),
          mkUpdate 20 100 (pstr "Starting enhanced AI processing...")] ++
          ((processDocumentEnhanced enrich upload content fname uuid0).callbacks.map
            fun cb => mkUpdate (routerProgress cb.current cb.total) 100 cb.msg) ++
          [mkError msg], .error msg) := by
    simp only [routerEnhanced]
    rw [hout]
  refine ⟨hatt, hout, ?_, ?_, ?_⟩
  · rw [hrouter]
  · intro r hr
    rw [hrouter] at hr
    simp only [List.mem_append, List.mem_cons, List.mem_singleton, List.mem_map,
      List.not_mem_nil, or_false] at hr
    rcases hr with ((hr | hr | hr) | ⟨cb, _, hr⟩) | hr <;> subst hr <;>
      simp [mkUpdate_status, mkError_status]
  · rw [hrouter]
    show (_ ++ _ ++ [mkError msg]).getLast? = some (mkError msg)
    rw [List.getLast?_concat]

/-- Witness for C6: a one-chunk document whose only upload raises "boom". -/
theorem C6_upload_failure_aborts_witness :
    (processDocumentEnhanced (fun _ => .success) (fun _ => .error (pstr "boom"))
        (pstr "hello") (pstr "f.pdf") 0).uploadsAttempted = List.range 1 ∧
    (processDocumentEnhanced (fun _ => .success) (fun _ => .error (pstr "boom"))
        (pstr "hello") (pstr "f.pdf") 0).outcome = .error (pstr "boom") ∧
    (routerEnhanced (.ok (pstr "hello")) (fun _ => .success)
        (fun _ => .error (pstr "boom")) (pstr "f.pdf") 0).2 = .error (pstr "boom") ∧
    (∀ r ∈ (routerEnhanced (.ok (pstr "hello")) (fun _ => .success)
        (fun _ => .error (pstr "boom")) (pstr "f.pdf") 0).1, r.status ≠ .complete) ∧
    (routerEnhanced (.ok (pstr "hello")) (fun _ => .success)
        (fun _ => .error (pstr "boom")) (pstr "f.pdf") 0).1.getLast? =
      some (mkError (pstr "boom")) :=
  C6_upload_failure_aborts (pstr "hello") (fun _ => .success) (fun _ => .error (pstr "boom"))
    (pstr "f.pdf") 0 0 (pstr "boom") (by decide) rfl (fun i hi => absurd hi (Nat.not_lt_zero i))

theorem mainLoop_ne_notFound :
    ∀ (snaps : List (Option Record)) (last : Option Record),
      (mainLoop last snaps).2 ≠ .notFound := by
  intro snaps
  induction snaps with
  | nil => intro last h; exact StreamEnd.noConfusion h
  | cons snap rest ih =>
    intro last
    cases snap with
    | none => intro h; exact StreamEnd.noConfusion h
    | some r =>
      simp only [mainLoop]
      split
      · intro h; exact StreamEnd.noConfusion h
      · exact ih _

theorem mainLoop_events_data :
    ∀ (snaps : List (Option Record)) (last : Option Record) (e : SSEEvent),
      e ∈ (mainLoop last snaps).1 → ∃ r, e = .data r := by
  intro snaps
  induction snaps with
  | nil => intro last e he; simp [mainLoop] at he
  | cons snap rest ih =>
    intro last e he
    cases snap with
    | none => simp [mainLoop] at he
    | some r =>
      simp only [mainLoop] at he
      by_cases hlast : some r = last
      · simp only [hlast, if_pos rfl] at he
        split at he
        · simp at he
        · simp only [List.nil_append] at he
          exact ih _ e he
      · simp only [if_neg hlast] at he
        split at he
        · simp only [List.mem_singleton] at he
          exact ⟨r, he⟩
        · simp only [List.cons_append, List.mem_cons, List.nil_append] at he
          rcases he with he | he
          · exact ⟨r, he⟩
          · exact ih _ e he

theorem mainLoop_terminal_iff :
    ∀ (snaps : List (Option Record)) (last : Option Record),
      (∀ r, last = some r → ¬(r.status = .complete ∨ r.status = .error)) →
      ((mainLoop last snaps).2 = .terminal ↔
        ∃ r, (mainLoop last snaps).1.getLast? = some (.data r) ∧
          (r.status = .complete ∨ r.status = .error)) := by
  intro snaps
  induction snaps with
  | nil =>
    intro last _
    simp [mainLoop]
  | cons snap rest ih =>
    intro last hinv
    cases snap with
    | none =>
      simp [mainLoop]
    | some r =>
      by_cases hterm : r.status = .complete ∨ r.status = .error
      · have hlast : some r ≠ last := by
          intro h
          exact hinv r h.symm hterm
        rw [show mainLoop last (some r :: rest) = ([SSEEvent.data r], .terminal) by
          simp [mainLoop, hterm, hlast]]
        simp only [List.getLast?_singleton, true_iff]
        exact ⟨r, rfl, hterm⟩
      · have hinv' : ∀ v, (if some r = last then last else some r) = some v →
            ¬(v.status = .complete ∨ v.status = .error) := by
          intro v hv
          by_cases hlast : some r = last
          · rw [if_pos hlast] at hv
            exact hinv v hv
          · rw [if_neg hlast] at hv
            cases hv
            exact hterm
        have := ih (if some r = last then last else some r) hinv'
        rw [show mainLoop last (some r :: rest) =
            ((if some r = last then [] else [SSEEvent.data r]) ++
              (mainLoop (if some r = last then last else some r) rest).1,
              (mainLoop (if some r = last then last else some r) rest).2) by
          simp only [mainLoop, hterm, if_false]]
        rcases hnil :
            (mainLoop (if some r = last then last else some r) rest).1 with _ | ⟨e, es⟩
        · rw [hnil] at this
          simp only [List.getLast?_nil] at this
          rw [List.append_nil]
          constructor
          · intro h2
            rcases this.mp h2 with ⟨v, hv, _⟩
            exact absurd hv (by simp)
          · intro h2
            rcases h2 with ⟨v, hv, hvterm⟩
            by_cases hlast : some r = last
            · rw [if_pos hlast] at hv
              simp at hv
            · rw [if_neg hlast] at hv
              simp only [List.getLast?_singleton, Option.some.injEq] at hv
              cases hv
              exact absurd hvterm hterm
        · rw [hnil] at this
          rw [@List.getLast?_append _
            (if some r = last then [] else [SSEEvent.data r]) (e :: es)]
          rw [show (e :: es).getLast?.or
              (if some r = last then ([] : List SSEEvent) else [SSEEvent.data r]).getLast? =
              (e :: es).getLast? by
            rcases List.getLast?_eq_getLast (e :: es) (by simp) with h
            rw [h]
            rfl]
          exact this

/-- C8, counterexample.  The claim says that once a record has appeared, the
stream closes if and only if it has just emitted a record whose status is
terminal.  But `event_stream` also breaks out of its polling loop — emitting
nothing — when the job id disappears from the store between consultations
(its `else: break` branch): here a record is present at the wait-loop check
and at the found-check, then gone at the first poll, so the stream closes
having emitted no event at all, terminal or otherwise. -/
theorem C8_counterexample :
    eventStream
        [some (mkUpdate 50 100 (pstr "x")), some (mkUpdate 50 100 (pstr "x")), none] =
      ([], .disappeared) ∧
    ¬∃ r,
      (eventStream
          [some (mkUpdate 50 100 (pstr "x")), some (mkUpdate 50 100 (pstr "x")),
            none]).1.getLast? = some (.data r) ∧
        (r.status = .complete ∨ r.status = .error) := by
  have he :
      eventStream
          [some (mkUpdate 50 100 (pstr "x")), some (mkUpdate 50 100 (pstr "x")), none] =
        ([], .disappeared) := by
    decide
  refine ⟨he, ?_⟩
  rintro ⟨r, hr, _⟩
  rw [he] at hr
  simp at hr

/-- C8, amended.  The stream closes with a terminal reason exactly when its
last emitted event is a record with terminal status (so a terminal emission
immediately ends the stream, and an ordinary close is always preceded by
one); when no record appears within the bounded initial wait it emits the
single not-found event and closes; but the stream may also close with no
terminal emission when the record disappears from the store between polls,
in which case everything it emitted (possibly nothing) was a plain record
event. -/
theorem C8_stream_termination (snaps : List (Option Record)) :
    ((eventStream snaps).2 = .terminal ↔
      ∃ r, (eventStream snaps).1.getLast? = some (.data r) ∧
        (r.status = .complete ∨ r.status = .error)) ∧
    ((eventStream snaps).2 = .notFound → (eventStream snaps).1 = [.notFound]) ∧
    ((eventStream snaps).2 = .disappeared →
      ∀ e ∈ (eventStream snaps).1, ∃ r, e = .data r) := by
  rcases hw : waitLoop 0 snaps with _ | ⟨s, rest⟩
  · have hev : eventStream snaps = ([], .fuelEnd) := by
      rw [eventStream, hw]
    rw [hev]
    refine ⟨?_, ?_, ?_⟩
    · simp
    · intro h; exact absurd h (by simp)
    · intro h; exact absurd h (by simp)
  · by_cases hs : s = none
    · have hev : eventStream snaps = ([.notFound], .notFound) := by
        rw [eventStream, hw]
        exact if_pos hs
      rw [hev]
      refine ⟨?_, fun _ => rfl, ?_⟩
      · constructor
        · intro h; exact absurd h (by simp)
        · rintro ⟨r, hr, _⟩
          simp only [List.getLast?_singleton, Option.some.injEq] at hr
          exact SSEEvent.noConfusion hr
      · intro h; exact absurd h (by simp)
    · have hev : eventStream snaps = mainLoop none rest := by
        rw [eventStream, hw]
        exact if_neg hs
      rw [hev]
      refine ⟨mainLoop_terminal_iff rest none (by intro r h; exact Option.noConfusion h),
        ?_, ?_⟩
      · intro h
        exact absurd h (mainLoop_ne_notFound rest none)
      · intro _ e he
        exact mainLoop_events_data rest none e he

/-- Witness for C8's amended theorem: a stream that observes a completed
record emits it and closes with the terminal reason. -/
theorem C8_stream_termination_witness :
    ∃ r,
      (eventStream
          [some (mkComplete ⟨0, pstr "f", 1, 1, [0], true⟩),
            some (mkComplete ⟨0, pstr "f", 1, 1, [0], true⟩),
            some (mkComplete ⟨0, pstr "f", 1, 1, [0], true⟩)]).1.getLast? =
        some (.data r) ∧ (r.status = .complete ∨ r.status = .error) :=
  ((C8_stream_termination
      [some (mkComplete ⟨0, pstr "f", 1, 1, [0], true⟩),
        some (mkComplete ⟨0, pstr "f", 1, 1, [0], true⟩),
        some (mkComplete ⟨0, pstr "f", 1, 1, [0], true⟩)]).1).mp (by decide)

theorem splitOnNN_cons_ne (c : Char) (l : PyStr) (hc : c ≠ '\n') :
    splitOnNN (c :: l) =
      match splitOnNN l with
      | [] => [[c]]
      | p :: ps => (c :: p) :: ps := by
  rw [splitOnNN.eq_def]
  split
  case h_1 x heq => exact absurd heq (by simp)
  case h_2 x rest heq =>
    injection heq with h1 h2
    exact absurd h1 hc
  case h_3 x c' rest' hno heq =>
    injection heq with h1 h2
    subst h1
    subst h2
    rfl

theorem splitOnNN_no_newline : ∀ (s : PyStr), '\n' ∉ s → splitOnNN s = [s] := by
  intro s
  induction s with
  | nil => intro _; rfl
  | cons c cs ih =>
    intro h
    have hc : c ≠ '\n' := fun he => h (he ▸ List.mem_cons_self c cs)
    have hcs : '\n' ∉ cs := fun hm => h (List.mem_cons_of_mem c hm)
    rw [splitOnNN_cons_ne c cs hc, ih hcs]

theorem splitOnNN_append_sep :
    ∀ (s t : PyStr), '\n' ∉ s → splitOnNN (s ++ '\n' :: '\n' :: t) = s :: splitOnNN t := by
  intro s
  induction s with
  | nil => intro t _; rfl
  | cons c cs ih =>
    intro t h
    have hc : c ≠ '\n' := fun he => h (he ▸ List.mem_cons_self c cs)
    have hcs : '\n' ∉ cs := fun hm => h (List.mem_cons_of_mem c hm)
    rw [List.cons_append, splitOnNN_cons_ne c _ hc, ih t hcs]

theorem dropWhile_replicate_nospace (n : Nat) (c : Char) (hc : isPySpace c = false) :
    (List.replicate n c).dropWhile isPySpace = List.replicate n c := by
  cases n with
  | zero => rfl
  | succ k => simp [List.replicate_succ, List.dropWhile_cons, hc]

theorem pyStrip_replicate (n : Nat) (c : Char) (hc : isPySpace c = false) :
    pyStrip (List.replicate n c) = List.replicate n c := by
  rw [pyStrip, dropWhile_replicate_nospace n c hc, List.reverse_replicate,
    dropWhile_replicate_nospace n c hc, List.reverse_replicate]

theorem chunksBig :
    chunk_content_enhanced 12000 bigContent =
      [List.replicate 7000 'a', List.replicate 7000 'b'] := by
  have hna : '\n' ∉ List.replicate 7000 'a' := by
    intro h
    rw [List.mem_replicate] at h
    exact absurd h.2 (by decide)
  have hnb : '\n' ∉ List.replicate 7000 'b' := by
    intro h
    rw [List.mem_replicate] at h
    exact absurd h.2 (by decide)
  have hsplit : splitOnNN bigContent =
      [List.replicate 7000 'a', List.replicate 7000 'b'] := by
    rw [bigContent, splitOnNN_append_sep _ _ hna, splitOnNN_no_newline _ hnb]
  have hane : List.replicate 7000 'a' ≠ ([] : PyStr) := by
    intro h
    have h2 := congrArg List.length h
    simp only [List.length_replicate, List.length_nil] at h2
    omega
  have hbne : List.replicate 7000 'b' ≠ ([] : PyStr) := by
    intro h
    have h2 := congrArg List.length h
    simp only [List.length_replicate, List.length_nil] at h2
    omega
  have h1 : enhParLoop 12000 [List.replicate 7000 'a', List.replicate 7000 'b'] ([], []) =
      ([pyStrip (List.replicate 7000 'a')], List.replicate 7000 'b') := by
    rw [enhParLoop]
    rw [if_neg (by simp only [List.length_nil, List.length_replicate]; omega)]
    rw [if_pos rfl]
    rw [enhParLoop]
    rw [if_pos (by simp only [List.length_replicate]; omega)]
    rw [if_pos hane]
    rw [enhParLoop, List.nil_append]
  have h2 : chunk_content_enhanced 12000 bigContent =
      (if (List.replicate 7000 'b' : PyStr) = [] then [pyStrip (List.replicate 7000 'a')]
       else [pyStrip (List.replicate 7000 'a')] ++ [pyStrip (List.replicate 7000 'b')]) := by
    rw [chunk_content_enhanced, hsplit, h1]
  rw [h2, if_neg hbne, pyStrip_replicate 7000 'a' (by decide),
    pyStrip_replicate 7000 'b' (by decide)]
  rfl

theorem enhTraceBig :
    processDocumentEnhanced (fun _ => .success) (fun i => .ok i) bigContent (pstr "f.pdf") 0 =
      { callbacks :=
          [⟨0, 2, pstr "Starting enhanced processing of 2 chunks..."⟩,
            ⟨1, 2, pstr "Enhanced chunk 1/2 with AI metadata"⟩,
            ⟨2, 2, pstr "Enhanced chunk 2/2 with AI metadata"⟩,
            ⟨3, 4, pstr "Uploaded enhanced chunk 1/2 to memory"⟩,
            ⟨4, 4, pstr "Uploaded enhanced chunk 2/2 to memory"⟩]
        metas := [⟨0, 0, 2, true⟩, ⟨1, 1, 2, true⟩]
        uploadsAttempted := [0, 1]
        outcome := .ok ⟨2, pstr "f.pdf", 2, 2, [0, 1], true⟩ } := by
  have htc : (chunk_content_enhanced 12000 bigContent).length = 2 := by
    rw [chunksBig]
    rfl
  simp only [processDocumentEnhanced, htc]
  decide

/-- C1, evaluated at the failing input.  For an enhanced ingestion of a
document that chunks into two pieces (all enrichment and all uploads
succeeding), the job's record trace carries the (status, percent) sequence
(processing, 0), (10), (20), (20), (60), (100), (80), (100), then
(complete, 100): after the last enrichment callback the percent reaches 100,
and the first upload-phase callback — computed against the doubled total —
drops it back to 80 while the status is still processing, so percent is not
monotonically non-decreasing, contrary to the claim (and to the code's own
comments assigning enrichment 0-80 percent and upload 80-100 percent). -/
theorem C1_percent_trace_not_monotone :
    ((routerEnhanced (.ok bigContent) (fun _ => .success) (fun i => .ok i)
        (pstr "f.pdf") 0).1.map fun r => (r.status, r.percent)) =
      [(.processing, 0), (.processing, 10), (.processing, 20), (.processing, 20),
        (.processing, 60), (.processing, 100), (.processing, 80), (.processing, 100),
        (.complete, 100)] ∧
    ¬ (∀ i j, i ≤ j →
        ∀ p q : Status × ℚ,
          ((routerEnhanced (.ok bigContent) (fun _ => .success) (fun i => .ok i)
              (pstr "f.pdf") 0).1.map fun r => (r.status, r.percent)).get? i = some p →
          ((routerEnhanced (.ok bigContent) (fun _ => .success) (fun i => .ok i)
              (pstr "f.pdf") 0).1.map fun r => (r.status, r.percent)).get? j = some q →
          p.1 = .processing → q.1 = .processing → p.2 ≤ q.2) := by
  have hmap :
      ((routerEnhanced (.ok bigContent) (fun _ => .success) (fun i => .ok i)
          (pstr "f.pdf") 0).1.map fun r => (r.status, r.percent)) =
        [(.processing, 0), (.processing, 10), (.processing, 20), (.processing, 20),
          (.processing, 60), (.processing, 100), (.processing, 80), (.processing, 100),
          (.complete, 100)] := by
    have key : ∀ (content : PyStr),
        processDocumentEnhanced (fun _ => .success) (fun i => .ok i) content
            (pstr "f.pdf") 0 =
          { callbacks :=
              [⟨0, 2, pstr "Starting enhanced processing of 2 chunks..."⟩,
                ⟨1, 2, pstr "Enhanced chunk 1/2 with AI metadata"⟩,
                ⟨2, 2, pstr "Enhanced chunk 2/2 with AI metadata"⟩,
                ⟨3, 4, pstr "Uploaded enhanced chunk 1/2 to memory"⟩,
                ⟨4, 4, pstr "Uploaded enhanced chunk 2/2 to memory"⟩]
            metas := [⟨0, 0, 2, true⟩, ⟨1, 1, 2, true⟩]
            uploadsAttempted := [0, 1]
            outcome := .ok ⟨2, pstr "f.pdf", 2, 2, [0, 1], true⟩ } →
        routerEnhanced (.ok content) (fun _ => .success) (fun i => .ok i)
            (pstr "f.pdf") 0 =
          ([mkUpdate 0 100 (pstr "Starting enhanced upload..."),
            mkUpdate 10 100 (pstr "Processing PDF..."),
            mkUpdate 20 100 (pstr "Starting enhanced AI processing..."),
            mkUpdate (routerProgress 0 2) 100
              (pstr "Starting enhanced processing of 2 chunks..."),
            mkUpdate (routerProgress 1 2) 100 (pstr "Enhanced chunk 1/2 with AI metadata"),
            mkUpdate (routerProgress 2 2) 100 (pstr "Enhanced chunk 2/2 with AI metadata"),
            mkUpdate (routerProgress 3 4) 100 (pstr "Uploaded enhanced chunk 1/2 to memory"),
            mkUpdate (routerProgress 4 4) 100 (pstr "Uploaded enhanced chunk 2/2 to memory"),
            mkComplete ⟨2, pstr "f.pdf", 2, 2, [0, 1], true⟩], .ok ()) := by
      intro content h
      simp only [routerEnhanced, h]
      rfl
    have h0 := key bigContent enhTraceBig
    rw [h0]
    simp only [List.map_cons, List.map_nil]
    norm_num [mkUpdate, mkComplete, routerProgress]
  refine ⟨hmap, ?_⟩
  intro h
  have h56 := h 5 6 (by omega) (.processing, 100) (.processing, 80)
    (by rw [hmap]; rfl) (by rw [hmap]; rfl) rfl rfl
  norm_num at h56

/-- C4, counterexample.  In the enhanced pipeline the chunks do not share a
document identifier: each chunk's metadata receives its own freshly drawn
uuid as `document_id` (the two chunks here carry distinct ids 0 and 1), and
the `document_id` returned in the ingestion result is yet another fresh uuid
(2), different from both — so the claim fails on the enhanced path. -/
theorem C4_counterexample :
    ((processDocumentEnhanced (fun _ => .success) (fun i => .ok i) bigContent
        (pstr "f.pdf") 0).metas.map fun m => m.document_id) = [0, 1] ∧
    (processDocumentEnhanced (fun _ => .success) (fun i => .ok i) bigContent
        (pstr "f.pdf") 0).outcome = .ok ⟨2, pstr "f.pdf", 2, 2, [0, 1], true⟩ ∧
    ¬ (∀ m1 ∈ (processDocumentEnhanced (fun _ => .success) (fun i => .ok i) bigContent
          (pstr "f.pdf") 0).metas,
        ∀ m2 ∈ (processDocumentEnhanced (fun _ => .success) (fun i => .ok i) bigContent
          (pstr "f.pdf") 0).metas, m1.document_id = m2.document_id) := by
  rw [enhTraceBig]
  refine ⟨rfl, rfl, ?_⟩
  intro h
  have := h ⟨0, 0, 2, true⟩ (by simp) ⟨1, 1, 2, true⟩ (by simp)
  simp at this

/-- C4, amended.  In the plain `add_document` path the claim holds: every
chunk's metadata carries the single generated `document_group_id` together
with its (chunk_index, total_chunks) pair, and that identifier equals the
`document_id` of the returned result.  In the enhanced path each chunk
instead receives its own fresh uuid, distinct from the returned id, as the
counterexample shows. -/
theorem C4_plain_group_id (content : PyStr) (uuid : Nat)
    (meta : PlainChunkMeta) (hm : meta ∈ (addDocument content uuid).1) :
    meta.document_id = (addDocument content uuid).2.document_id ∧
    meta.total_chunks = (addDocument content uuid).2.total_chunks := by
  simp only [addDocument, List.mem_map] at hm
  obtain ⟨i, _, hi⟩ := hm
  subst hi
  exact ⟨rfl, rfl⟩

/-- Witness for C4's amended theorem at a concrete one-chunk document. -/
theorem C4_plain_group_id_witness :
    (⟨7, 0, 1, 2⟩ : PlainChunkMeta).document_id =
      (addDocument (pstr "hi") 7).2.document_id ∧
    (⟨7, 0, 1, 2⟩ : PlainChunkMeta).total_chunks =
      (addDocument (pstr "hi") 7).2.total_chunks :=
  C4_plain_group_id (pstr "hi") 7 ⟨7, 0, 1, 2⟩ (by decide)
